import Mathlib

/-!
Verification of the DeepMind-style Atari wrapper pipeline in
`assignment3/utils.py`: `NoopResetEnv`, `FireResetEnv`, `EpisodicLifeEnv`,
`MaxAndSkipEnv`, `ClippedRewardsWrapper` and the composer `wrap_deepmind_ram`.

The base environment is modelled as a deterministic transition system over an
abstract state type: `reset` and `step` return the successor state together
with their observable outputs, `lives` reads the ALE life counter from a
state (`env.unwrapped.ale.lives()`), and the action-meaning table is a list
of strings.  Observations are integer frames, rewards are exact integers,
`info` is an opaque token.  To reason about which calls a wrapper issues to
its inner environment, `BaseEnv.traced` pairs the state with a log of
`Event`s, appending one event per inner `reset`/`step` call.
-/

/-- An observation frame: a two-dimensional array of pixel values. -/
abbrev Obs := List (List Int)

/-- The `(obs, reward, done, info)` tuple returned by a `step` call. -/
structure StepOut where
  obs : Obs
  reward : Int
  done : Bool
  info : Nat
deriving DecidableEq, Repr

/-- A deterministic base environment over state type `σ`:
`reset`/`step` thread the state explicitly, `lives` is the ALE life counter
read from a state. -/
structure BaseEnv (σ : Type) where
  reset : σ → σ × Obs
  step : σ → Nat → σ × StepOut
  lives : σ → Nat

/-- One call a wrapper makes into its inner environment. -/
inductive Event where
  | reset : Event
  | step : Nat → Event
deriving DecidableEq, Repr

/-- Instrumented copy of an environment that logs every `reset`/`step` call. -/
def BaseEnv.traced {σ : Type} (E : BaseEnv σ) : BaseEnv (σ × List Event) where
  reset := fun p =>
    let r := E.reset p.1
    ((r.1, p.2 ++ [Event.reset]), r.2)
  step := fun p a =>
    let r := E.step p.1 a
    ((r.1, p.2 ++ [Event.step a]), r.2)
  lives := fun p => E.lives p.1

/-! ## EpisodicLifeEnv -/

/-- Mutable state of `EpisodicLifeEnv`: `self.lives`, `self.was_real_done`,
`self.was_real_reset`. -/
structure EpisodicLifeState where
  lives : Nat
  was_real_done : Bool
  was_real_reset : Bool
deriving DecidableEq, Repr

/-- `EpisodicLifeEnv.__init__`: `self.lives = 0`, `self.was_real_done = True`,
`self.was_real_reset = False`. -/
def EpisodicLifeEnv.initState : EpisodicLifeState :=
  { lives := 0, was_real_done := true, was_real_reset := false }

/-- `EpisodicLifeEnv._step`: delegate to the inner environment, record
`was_real_done`, read the life counter, make loss of life terminal when
`lives < self.lives and lives > 0`, then update `self.lives`. -/
def EpisodicLifeEnv.stepFn {σ : Type} (E : BaseEnv σ) (s : σ)
    (w : EpisodicLifeState) (a : Nat) : σ × EpisodicLifeState × StepOut :=
  let r := E.step s a
  let lv := E.lives r.1
  let done := if lv < w.lives ∧ 0 < lv then true else r.2.done
  (r.1,
   { lives := lv, was_real_done := r.2.done, was_real_reset := w.was_real_reset },
   { obs := r.2.obs, reward := r.2.reward, done := done, info := r.2.info })

/-- `EpisodicLifeEnv._reset`: reset the inner environment only when
`was_real_done`; otherwise advance with a single no-op step.  Either way,
refresh `self.lives` from the life counter afterwards. -/
def EpisodicLifeEnv.resetFn {σ : Type} (E : BaseEnv σ) (s : σ)
    (w : EpisodicLifeState) : σ × EpisodicLifeState × Obs :=
  if w.was_real_done then
    let r := E.reset s
    (r.1,
     { lives := E.lives r.1, was_real_done := w.was_real_done, was_real_reset := true },
     r.2)
  else
    let r := E.step s 0
    (r.1,
     { lives := E.lives r.1, was_real_done := w.was_real_done, was_real_reset := false },
     r.2.obs)

/-! ## NoopResetEnv and FireResetEnv constructors (assertion checks) -/

/-- `NoopResetEnv.__init__`: indexing `get_action_meanings()[0]` raises on an
empty table, and the assertion `== 'NOOP'` raises on a mismatch; on success
the wrapper stores `noop_max`. -/
def NoopResetEnv.construct (meanings : List String) (noop_max : Nat) :
    Except String Nat :=
  match meanings[0]? with
  | none => Except.error "IndexError"
  | some a0 => if a0 = "NOOP" then Except.ok noop_max else Except.error "AssertionError"

/-- `FireResetEnv.__init__`: indexing `get_action_meanings()[1]` raises on a
short table, the assertion `== 'FIRE'` raises on a mismatch, and the length
assertion requires at least 3 actions. -/
def FireResetEnv.construct (meanings : List String) : Except String Unit :=
  match meanings[1]? with
  | none => Except.error "IndexError"
  | some a1 =>
    if a1 = "FIRE" then
      if 3 ≤ meanings.length then Except.ok () else Except.error "AssertionError"
    else Except.error "AssertionError"

/-- Did construction succeed? -/
def constructionOk {α : Type} : Except String α → Bool
  | Except.ok _ => true
  | Except.error _ => false

/-! ## FireResetEnv reset -/

/-- `FireResetEnv._reset`: inner `reset`, then `step(1)`, then `step(2)`,
returning only the final observation (rewards and done flags of the two
forced steps are dropped). -/
def FireResetEnv.resetFn {σ : Type} (E : BaseEnv σ) (s : σ) : σ × Obs :=
  let r0 := E.reset s
  let r1 := E.step r0.1 1
  let r2 := E.step r1.1 2
  (r2.1, r2.2.obs)

/-! ## NoopResetEnv reset -/

/-- The loop body of `NoopResetEnv._reset`: run `n` no-op steps, keeping only
the most recent observation (`none` when no step has run yet). -/
def noopLoop {σ : Type} (E : BaseEnv σ) : Nat → σ → Option Obs → σ × Option Obs
  | 0, s, last => (s, last)
  | Nat.succ n, s, _ =>
    let r := E.step s 0
    noopLoop E n r.1 (some r.2.obs)

/-- `NoopResetEnv._reset` with the sampled no-op count `noops` made explicit:
inner `reset` (its observation is discarded), then `noops` no-op steps,
returning the last observation.  In the source, `noops` is drawn by
`np.random.randint(1, self.noop_max + 1)`, i.e. uniformly from
`[1, noop_max]`. -/
def NoopResetEnv.resetFn {σ : Type} (E : BaseEnv σ) (noops : Nat) (s : σ) :
    σ × Option Obs :=
  let r := E.reset s
  noopLoop E noops r.1 none

/-- State reached after `n` no-op steps of the base environment. -/
def noopIter {σ : Type} (E : BaseEnv σ) : Nat → σ → σ
  | 0, s => s
  | Nat.succ n, s => noopIter E n (E.step s 0).1

/-! ## MaxAndSkipEnv -/

/-- Appending to `deque(maxlen=2)`: once two frames are held, the oldest is
evicted. -/
def dq2_append (buf : List Obs) (o : Obs) : List Obs :=
  if buf.length < 2 then buf ++ [o] else buf.tail ++ [o]

/-- Element-wise maximum of two equally shaped frames. -/
def elemMax (f g : Obs) : Obs :=
  List.zipWith (fun r1 r2 => List.zipWith max r1 r2) f g

/-- `np.max(np.stack(buffer), axis=0)`: element-wise maximum across the
stacked frames (`none` on an empty buffer, where numpy raises). -/
def npMaxStack : List Obs → Option Obs
  | [] => none
  | [f] => some f
  | f :: g :: rest => (npMaxStack (g :: rest)).map (elemMax f)

/-- The loop of `MaxAndSkipEnv._step`: up to `n` inner steps with the same
action, appending each observation to the 2-slot buffer and summing rewards,
breaking as soon as a sub-step reports `done`.  The last component carries
`(done, info)` of the most recent sub-step (`none` before any step ran). -/
def skipLoop {σ : Type} (E : BaseEnv σ) (a : Nat) :
    Nat → σ → List Obs → Int → Option (Bool × Nat) →
    σ × List Obs × Int × Option (Bool × Nat)
  | 0, s, buf, tot, last => (s, buf, tot, last)
  | Nat.succ n, s, buf, tot, _ =>
    let r := E.step s a
    let buf2 := dq2_append buf r.2.obs
    let tot2 := tot + r.2.reward
    if r.2.done then (r.1, buf2, tot2, some (r.2.done, r.2.info))
    else skipLoop E a n r.1 buf2 tot2 (some (r.2.done, r.2.info))

/-- `MaxAndSkipEnv._step`: run the skip loop, then return the element-wise
maximum over the (persistent) frame buffer together with the summed reward
and the last sub-step's `(done, info)`. -/
def MaxAndSkipEnv.stepFn {σ : Type} (E : BaseEnv σ) (skip : Nat) (s : σ)
    (buf : List Obs) (a : Nat) :
    σ × List Obs × (Option Obs × Int × Option (Bool × Nat)) :=
  let r := skipLoop E a skip s buf 0 none
  (r.1, r.2.1, (npMaxStack r.2.1, r.2.2.1, r.2.2.2))

/-- `MaxAndSkipEnv._reset`: clear the buffer, reset the inner environment,
seed the buffer with the resulting observation and return it. -/
def MaxAndSkipEnv.resetFn {σ : Type} (E : BaseEnv σ) (s : σ) :
    σ × List Obs × Obs :=
  let r := E.reset s
  (r.1, [r.2], r.2)

/-- The sub-steps a repeat-`a` loop with early exit actually executes: at most
`n` outputs of stepping `E` with action `a`, cut right after the first `done`. -/
def traj {σ : Type} (E : BaseEnv σ) (a : Nat) : Nat → σ → List StepOut
  | 0, _ => []
  | Nat.succ n, s =>
    let r := E.step s a
    if r.2.done then [r.2] else r.2 :: traj E a n r.1

/-- Base-environment state after the sub-steps of `traj`. -/
def trajEnd {σ : Type} (E : BaseEnv σ) (a : Nat) : Nat → σ → σ
  | 0, s => s
  | Nat.succ n, s =>
    let r := E.step s a
    if r.2.done then r.1 else trajEnd E a n r.1

/-- The skip loop is characterised by the executed sub-step list `traj`. -/
theorem skipLoop_eq {σ : Type} (E : BaseEnv σ) (a : Nat) :
    ∀ (n : Nat) (s : σ) (buf : List Obs) (tot : Int) (l0 : Option (Bool × Nat)),
    skipLoop E a n s buf tot l0 =
      (trajEnd E a n s,
       List.foldl dq2_append buf ((traj E a n s).map StepOut.obs),
       tot + ((traj E a n s).map StepOut.reward).sum,
       (traj E a n s).foldl (fun _ r => some (r.done, r.info)) l0) := by
  intro n
  induction n with
  | zero => intro s buf tot l0; simp [skipLoop, traj, trajEnd]
  | succ n ih =>
    intro s buf tot l0
    by_cases h : (E.step s a).2.done
    · simp [skipLoop, traj, trajEnd, h]
    · simp only [Bool.not_eq_true] at h
      simp only [skipLoop, traj, trajEnd, h, if_false, Bool.false_eq_true]
      rw [ih]
      simp [List.foldl_cons, add_assoc, h]

/-- Tracing is transparent to `traj`: the executed sub-steps are those of the
underlying environment. -/
theorem traj_traced {σ : Type} (E : BaseEnv σ) (a : Nat) :
    ∀ (n : Nat) (s : σ) (log : List Event),
    traj E.traced a n (s, log) = traj E a n s := by
  intro n
  induction n with
  | zero => intro s log; rfl
  | succ n ih =>
    intro s log
    have hstep : E.traced.step (s, log) a =
        (((E.step s a).1, log ++ [Event.step a]), (E.step s a).2) := rfl
    simp only [traj, hstep]
    by_cases h : (E.step s a).2.done
    · simp [h]
    · simp only [Bool.not_eq_true] at h
      simp [h, ih]

/-- Tracing `trajEnd`: the final state is the untraced final state, and the
log grows by exactly one `step a` event per executed sub-step. -/
theorem trajEnd_traced {σ : Type} (E : BaseEnv σ) (a : Nat) :
    ∀ (n : Nat) (s : σ) (log : List Event),
    trajEnd E.traced a n (s, log) =
      (trajEnd E a n s,
       log ++ List.replicate (traj E a n s).length (Event.step a)) := by
  intro n
  induction n with
  | zero => intro s log; simp [trajEnd, traj]
  | succ n ih =>
    intro s log
    have hstep : E.traced.step (s, log) a =
        (((E.step s a).1, log ++ [Event.step a]), (E.step s a).2) := rfl
    simp only [trajEnd, traj, hstep]
    by_cases h : (E.step s a).2.done
    · simp [h]
    · simp only [Bool.not_eq_true] at h
      simp [h, ih, List.replicate_succ]

/-- `traj` executes at most `n` sub-steps. -/
theorem traj_length_le {σ : Type} (E : BaseEnv σ) (a : Nat) :
    ∀ (n : Nat) (s : σ), (traj E a n s).length ≤ n := by
  intro n
  induction n with
  | zero => intro s; simp [traj]
  | succ n ih =>
    intro s
    by_cases h : (E.step s a).2.done <;> simp [traj, h]
    exact ih _

/-- `traj` with positive fuel executes at least one sub-step. -/
theorem traj_ne_nil {σ : Type} (E : BaseEnv σ) (a : Nat) (n : Nat) (s : σ)
    (h : 1 ≤ n) : traj E a n s ≠ [] := by
  cases n with
  | zero => omega
  | succ n =>
    by_cases hd : (E.step s a).2.done <;> simp [traj, hd]

/-- If fewer than `n` sub-steps executed, the loop stopped because the last
executed sub-step reported `done`. -/
theorem traj_short_last_done {σ : Type} (E : BaseEnv σ) (a : Nat) :
    ∀ (n : Nat) (s : σ), (traj E a n s).length < n →
    ∃ r, (traj E a n s).getLast? = some r ∧ r.done = true := by
  intro n
  induction n with
  | zero => intro s h; omega
  | succ n ih =>
    intro s h
    by_cases hd : (E.step s a).2.done
    · exact ⟨(E.step s a).2, by simp [traj, hd], hd⟩
    · simp only [traj, hd, if_neg, if_false, Bool.false_eq_true] at h ⊢
      simp only [List.length_cons] at h
      obtain ⟨r, hr, hrd⟩ := ih (E.step s a).1 (by omega)
      refine ⟨r, ?_, hrd⟩
      rw [List.getLast?_cons, hr]
      simp

/-- Every sub-step before the last one reported `done = false` (the loop
stops immediately after a `done`). -/
theorem traj_dropLast_not_done {σ : Type} (E : BaseEnv σ) (a : Nat) :
    ∀ (n : Nat) (s : σ) (r : StepOut), r ∈ (traj E a n s).dropLast →
    r.done = false := by
  intro n
  induction n with
  | zero => intro s r h; simp [traj] at h
  | succ n ih =>
    intro s r h
    by_cases hd : (E.step s a).2.done
    · simp [traj, hd] at h
    · simp only [Bool.not_eq_true] at hd
      simp only [traj, hd, if_false, Bool.false_eq_true] at h
      cases hT : traj E a n (E.step s a).1 with
      | nil => rw [hT] at h; simp at h
      | cons t ts =>
        rw [hT, List.dropLast_cons₂] at h
        rcases List.mem_cons.mp h with h1 | h1
        · rw [h1]; exact hd
        · exact ih _ r (by rw [hT]; exact h1)

/-- Folding the buffer update over a list keeps the last two elements of the
whole stream, provided the buffer held at most two frames (its invariant). -/
theorem foldl_dq2_append (l : List Obs) :
    ∀ (buf : List Obs), buf.length ≤ 2 →
    List.foldl dq2_append buf l = (buf ++ l).drop (buf.length + l.length - 2) := by
  induction l with
  | nil =>
    intro buf h
    simp only [List.foldl_nil, List.append_nil, List.length_nil]
    have e : buf.length + 0 - 2 = 0 := by omega
    rw [e, List.drop_zero]
  | cons x rest ih =>
    intro buf h
    by_cases hb : buf.length < 2
    · have hd : dq2_append buf x = buf ++ [x] := by simp [dq2_append, hb]
      rw [List.foldl_cons, hd, ih (buf ++ [x]) (by simp; omega)]
      have e : (buf ++ [x]).length + rest.length - 2 =
          buf.length + (x :: rest).length - 2 := by simp; omega
      rw [e, List.append_assoc]
      rfl
    · have hlen2 : buf.length = 2 := by omega
      match buf, hlen2 with
      | [b0, b1], _ =>
        have hd : dq2_append [b0, b1] x = [b1, x] := by
          simp [dq2_append]
        rw [List.foldl_cons, hd, ih [b1, x] (by simp)]
        have e1 : [b1, x].length + rest.length - 2 = rest.length := by
          simp only [List.length_cons, List.length_nil]; omega
        have e2 : [b0, b1].length + (x :: rest).length - 2 = rest.length + 1 := by
          simp only [List.length_cons, List.length_nil]; omega
        rw [e1, e2]
        rw [show ([b0, b1] ++ x :: rest) = b0 :: (b1 :: x :: rest) from rfl,
          List.drop_succ_cons]
        rfl

/-! ## Theorems: EpisodicLifeEnv step and reset (C2, C3, C10) -/

/-- C2: every `step` on EpisodicLifeWrapper delegates exactly once to the
inner environment, records `was_real_done = done`, reads the post-step life
count, returns `done` overridden to true exactly when
`current_lives < self.lives ∧ current_lives > 0`, stores the new life count,
and passes `obs`, `reward` and `info` through unmodified. -/
theorem C2_episodicLife_step {σ : Type} (E : BaseEnv σ) (s : σ)
    (log : List Event) (w : EpisodicLifeState) (a : Nat) :
    EpisodicLifeEnv.stepFn E.traced (s, log) w a =
      (((E.step s a).1, log ++ [Event.step a]),
       { lives := E.lives (E.step s a).1,
         was_real_done := (E.step s a).2.done,
         was_real_reset := w.was_real_reset },
       { obs := (E.step s a).2.obs,
         reward := (E.step s a).2.reward,
         done := ((E.step s a).2.done ||
           (decide (E.lives (E.step s a).1 < w.lives) &&
            decide (0 < E.lives (E.step s a).1))),
         info := (E.step s a).2.info }) := by
  simp only [EpisodicLifeEnv.stepFn, BaseEnv.traced]
  by_cases h : E.lives (E.step s a).1 < w.lives ∧ 0 < E.lives (E.step s a).1
  · simp [h, h.1, h.2]
  · rw [if_neg h]
    rcases Decidable.not_and_iff_or_not.mp h with h1 | h1 <;> simp [h1]

/-- C3: every `reset` on EpisodicLifeWrapper either calls the inner `reset`
(when `was_real_done`) or issues exactly one no-op step (action 0) and no
inner reset; in both branches it then refreshes `self.lives` from the
post-operation life count and returns the resulting observation. -/
theorem C3_episodicLife_reset {σ : Type} (E : BaseEnv σ) (s : σ)
    (log : List Event) (w : EpisodicLifeState) :
    EpisodicLifeEnv.resetFn E.traced (s, log) w =
      if w.was_real_done then
        (((E.reset s).1, log ++ [Event.reset]),
         { lives := E.lives (E.reset s).1,
           was_real_done := w.was_real_done, was_real_reset := true },
         (E.reset s).2)
      else
        (((E.step s 0).1, log ++ [Event.step 0]),
         { lives := E.lives (E.step s 0).1,
           was_real_done := w.was_real_done, was_real_reset := false },
         (E.step s 0).2.obs) := by
  by_cases h : w.was_real_done <;>
    simp [EpisodicLifeEnv.resetFn, BaseEnv.traced, h]

/-- C10: immediately after construction, `lives = 0` and
`was_real_done = true`; hence the first reset performs the inner-reset
branch (its call log is exactly one inner `reset`), and the life-loss
override cannot fire on a step taken from the freshly constructed state
(life counts are naturals, so `lives < 0` is impossible): the returned
`done` equals the base environment's `done`. -/
theorem C10_episodicLife_initial_state :
    EpisodicLifeEnv.initState.lives = 0 ∧
    EpisodicLifeEnv.initState.was_real_done = true ∧
    (∀ (σ : Type) (E : BaseEnv σ) (s : σ) (log : List Event),
      (EpisodicLifeEnv.resetFn E.traced (s, log) EpisodicLifeEnv.initState).1.2 =
        log ++ [Event.reset]) ∧
    (∀ (σ : Type) (E : BaseEnv σ) (s : σ) (a : Nat),
      (EpisodicLifeEnv.stepFn E s EpisodicLifeEnv.initState a).2.2.done =
        (E.step s a).2.done) := by
  refine ⟨rfl, rfl, ?_, ?_⟩
  · intro σ E s log
    simp [EpisodicLifeEnv.resetFn, EpisodicLifeEnv.initState, BaseEnv.traced]
  · intro σ E s a
    simp [EpisodicLifeEnv.stepFn, EpisodicLifeEnv.initState]

/-! ## Theorems: constructor validation (C7) -/

/-- C7: `NoopResetEnv` construction succeeds iff the action-meaning table has
"NOOP" at index 0, and `FireResetEnv` construction succeeds iff the table has
"FIRE" at index 1 and at least 3 actions; every violation is an explicit
construction error. -/
theorem C7_construction_validation (meanings : List String) (noop_max : Nat) :
    (constructionOk (NoopResetEnv.construct meanings noop_max) = true ↔
      meanings[0]? = some "NOOP") ∧
    (constructionOk (FireResetEnv.construct meanings) = true ↔
      (meanings[1]? = some "FIRE" ∧ 3 ≤ meanings.length)) := by
  constructor
  · unfold NoopResetEnv.construct
    cases h0 : meanings[0]? with
    | none => simp [constructionOk]
    | some a0 =>
      by_cases ha : a0 = "NOOP" <;> simp [ha, constructionOk]
  · unfold FireResetEnv.construct
    cases h1 : meanings[1]? with
    | none => simp [constructionOk]
    | some a1 =>
      by_cases ha : a1 = "FIRE"
      · by_cases hl : 3 ≤ meanings.length <;> simp [ha, hl, constructionOk]
      · simp [ha, constructionOk]

/-! ## Theorems: FireResetEnv reset (C8) -/

/-- C8: every `reset` on FireResetWrapper calls the inner `reset`, then steps
with action 1 and then action 2 (exactly two steps, in that order), and
returns the observation of the second step; the output carries no reward or
done flag from those steps. -/
theorem C8_fireReset_reset {σ : Type} (E : BaseEnv σ) (s : σ) (log : List Event) :
    FireResetEnv.resetFn E.traced (s, log) =
      (((E.step (E.step (E.reset s).1 1).1 2).1,
        log ++ [Event.reset, Event.step 1, Event.step 2]),
       (E.step (E.step (E.reset s).1 1).1 2).2.obs) := by
  simp [FireResetEnv.resetFn, BaseEnv.traced]

/-! ## Theorems: MaxAndSkipEnv step (C5) and buffer persistence (C1) -/

/-- Folding the "remember the last sub-step" update yields the last element. -/
theorem foldl_lastPair : ∀ (L : List StepOut) (l0 : Option (Bool × Nat)),
    L ≠ [] →
    L.foldl (fun _ r => some (r.done, r.info)) l0 =
      L.getLast?.map (fun r => (r.done, r.info)) := by
  intro L
  induction L with
  | nil => intro l0 h; exact absurd rfl h
  | cons r rest ih =>
    intro l0 _
    cases rest with
    | nil => simp
    | cons r2 rest2 =>
      rw [List.foldl_cons, ih _ (by simp), List.getLast?_cons_cons]

/-- C5: a `step` on MaxAndSkipWrapper with `skip ≥ 1` calls the inner `step`
with the same action once per executed sub-step and nothing else; it executes
at most `skip` sub-steps, fewer than `skip` only because the last executed
sub-step reported `done`, and never continues past a `done`; the returned
reward is the exact sum of the executed sub-steps' rewards, the returned
observation is the element-wise maximum over the frames in the buffer, and
the returned `(done, info)` comes from the last executed sub-step. -/
theorem C5_maxAndSkip_step {σ : Type} (E : BaseEnv σ) (s : σ) (log : List Event)
    (buf : List Obs) (a skip : Nat) (hs : 1 ≤ skip) :
    (MaxAndSkipEnv.stepFn E.traced skip (s, log) buf a).1.2 =
      log ++ List.replicate (traj E a skip s).length (Event.step a) ∧
    (traj E a skip s).length ≤ skip ∧
    ((traj E a skip s).length < skip →
      ∃ r, (traj E a skip s).getLast? = some r ∧ r.done = true) ∧
    (∀ r ∈ (traj E a skip s).dropLast, r.done = false) ∧
    (MaxAndSkipEnv.stepFn E.traced skip (s, log) buf a).2.2.2.1 =
      ((traj E a skip s).map StepOut.reward).sum ∧
    (MaxAndSkipEnv.stepFn E.traced skip (s, log) buf a).2.2.1 =
      npMaxStack (MaxAndSkipEnv.stepFn E.traced skip (s, log) buf a).2.1 ∧
    (∃ r, (traj E a skip s).getLast? = some r ∧
      (MaxAndSkipEnv.stepFn E.traced skip (s, log) buf a).2.2.2.2 =
        some (r.done, r.info)) := by
  have hne : traj E a skip s ≠ [] := traj_ne_nil E a skip s hs
  refine ⟨?_, traj_length_le E a skip s, traj_short_last_done E a skip s,
    traj_dropLast_not_done E a skip s, ?_, ?_, ?_⟩
  · simp [MaxAndSkipEnv.stepFn, skipLoop_eq, trajEnd_traced]
  · simp [MaxAndSkipEnv.stepFn, skipLoop_eq, traj_traced]
  · rfl
  · cases hL : (traj E a skip s).getLast? with
    | none => exact absurd (List.getLast?_eq_none_iff.mp hL) hne
    | some r =>
      refine ⟨r, rfl, ?_⟩
      simp only [MaxAndSkipEnv.stepFn, skipLoop_eq, traj_traced]
      rw [foldl_lastPair _ _ hne, hL]
      rfl

/-- Deterministic toy environment used to instantiate proved theorems:
state is a step counter, frame `t` is `[[t]]`, each step yields reward 1,
`done` fires on the fourth step, the life counter is constant. -/
def tEnv : BaseEnv Nat where
  reset := fun _ => (0, [[0]])
  step := fun t _ =>
    (t + 1,
     { obs := [[Int.ofNat t]], reward := 1, done := decide (4 ≤ t + 1), info := t })
  lives := fun _ => 3

theorem C5_maxAndSkip_step_witness :
    1 ≤ 2 ∧
    (MaxAndSkipEnv.stepFn tEnv.traced 2 (0, []) [] 7).2.2.2.1 =
      ((traj tEnv 7 2 0).map StepOut.reward).sum :=
  ⟨by decide, (C5_maxAndSkip_step tEnv 0 [] [] 7 2 (by decide)).2.2.2.2.1⟩

/-- Concrete environment refuting C1: two consecutive wrapper steps with
`skip = 2`, where the base signals `done` on the first sub-step of the second
call, so the buffer still holds a frame of the first call. -/
def c1Env : BaseEnv Nat where
  reset := fun _ => (0, [[100]])
  step := fun t _ =>
    (t + 1,
     { obs := [[if t = 0 then 9 else if t = 1 then 8 else 1]],
       reward := 0, done := decide (2 ≤ t), info := t })
  lives := fun _ => 0

/-- C1 counterexample: the frame `[[8]]` is observed during the first `step`
call (and not during the second), yet it sits in the buffer the second call
max-pools over, and it even is the max frame the second call returns: the
2-slot frame buffer is NOT reset between consecutive `step` calls. -/
theorem C1_counterexample :
    [[(8 : Int)]] ∈ (traj c1Env 0 2 0).map StepOut.obs ∧
    [[(8 : Int)]] ∉
      (traj c1Env 0 2 (MaxAndSkipEnv.stepFn c1Env 2 0 [[[100]]] 0).1).map
        StepOut.obs ∧
    [[(8 : Int)]] ∈
      (MaxAndSkipEnv.stepFn c1Env 2 (MaxAndSkipEnv.stepFn c1Env 2 0 [[[100]]] 0).1
        (MaxAndSkipEnv.stepFn c1Env 2 0 [[[100]]] 0).2.1 0).2.1 ∧
    (MaxAndSkipEnv.stepFn c1Env 2 (MaxAndSkipEnv.stepFn c1Env 2 0 [[[100]]] 0).1
        (MaxAndSkipEnv.stepFn c1Env 2 0 [[[100]]] 0).2.1 0).2.2.1 =
      some [[(8 : Int)]] := by
  decide

/-- C1 amended: the frame buffer is cleared only by `reset` and persists
across `step` calls; a frame observed during one `step` call can enter the
next call's max exactly when that call executes fewer than two sub-steps.
Whenever a `step` call executes at least two sub-steps (and the buffer held
at most its two-slot capacity), the buffer it max-pools over consists of the
last two frames of that same call, so no earlier frame contributes. -/
theorem C1_amended_buffer_persistence {σ : Type} (E : BaseEnv σ) (skip : Nat)
    (s : σ) (buf : List Obs) (a : Nat)
    (hbuf : buf.length ≤ 2) (h2 : 2 ≤ (traj E a skip s).length) :
    (MaxAndSkipEnv.stepFn E skip s buf a).2.1 =
      ((traj E a skip s).map StepOut.obs).drop ((traj E a skip s).length - 2) ∧
    ∀ f ∈ (MaxAndSkipEnv.stepFn E skip s buf a).2.1,
      f ∈ (traj E a skip s).map StepOut.obs := by
  have hb : (MaxAndSkipEnv.stepFn E skip s buf a).2.1 =
      List.foldl dq2_append buf ((traj E a skip s).map StepOut.obs) := by
    simp [MaxAndSkipEnv.stepFn, skipLoop_eq]
  have hlen : ((traj E a skip s).map StepOut.obs).length =
      (traj E a skip s).length := List.length_map _ _
  have hidx : buf.length + ((traj E a skip s).map StepOut.obs).length - 2 =
      buf.length + (((traj E a skip s).map StepOut.obs).length - 2) := by
    rw [hlen]; omega
  have hdrop : (MaxAndSkipEnv.stepFn E skip s buf a).2.1 =
      ((traj E a skip s).map StepOut.obs).drop ((traj E a skip s).length - 2) := by
    rw [hb, foldl_dq2_append _ buf hbuf, hidx, List.drop_append, hlen]
  refine ⟨hdrop, ?_⟩
  intro f hf
  rw [hdrop] at hf
  exact List.mem_of_mem_drop hf

theorem C1_amended_witness :
    [[[(100 : Int)]]].length ≤ 2 ∧ 2 ≤ (traj c1Env 0 2 0).length ∧
    (MaxAndSkipEnv.stepFn c1Env 2 0 [[[100]]] 0).2.1 =
      ((traj c1Env 0 2 0).map StepOut.obs).drop ((traj c1Env 0 2 0).length - 2) :=
  ⟨by decide, by decide,
   (C1_amended_buffer_persistence c1Env 2 0 [[[100]]] 0 (by decide) (by decide)).1⟩

/-! ## Theorems: EpisodicLifeEnv done refinement (C6) -/

/-- One `(wrapper done, base done, life count read)` record per step of a
driven EpisodicLifeEnv run. -/
def stepsEL {σ : Type} (E : BaseEnv σ) :
    List Nat → σ → EpisodicLifeState → List (Bool × Bool × Nat)
  | [], _, _ => []
  | a :: rest, s, w =>
    let R := EpisodicLifeEnv.stepFn E s w a
    (R.2.2.done, (E.step s a).2.done, E.lives R.1) :: stepsEL E rest R.1 R.2.1

/-- The base environment never reports a life loss along a run: each life
count read is at least the previously recorded value. -/
def noLifeLossB (prev : Nat) : List (Bool × Bool × Nat) → Bool
  | [] => true
  | p :: rest => (decide (prev ≤ p.2.2)) && noLifeLossB p.2.2 rest

/-- C6: along any finite step sequence in which the base environment never
reports a life loss (each life count read is at least the previously
recorded one), the `done` returned by EpisodicLifeWrapper equals the base
environment's `done` at every position. -/
theorem C6_episodicLife_done_refinement {σ : Type} (E : BaseEnv σ) :
    ∀ (acts : List Nat) (s : σ) (w : EpisodicLifeState),
    noLifeLossB w.lives (stepsEL E acts s w) = true →
    ∀ p ∈ stepsEL E acts s w, p.1 = p.2.1 := by
  intro acts
  induction acts with
  | nil => intro s w _ p hp; simp [stepsEL] at hp
  | cons a rest ih =>
    intro s w h p hp
    simp only [stepsEL] at hp
    rw [show stepsEL E (a :: rest) s w =
        ((EpisodicLifeEnv.stepFn E s w a).2.2.done, (E.step s a).2.done,
          E.lives (EpisodicLifeEnv.stepFn E s w a).1) ::
          stepsEL E rest (EpisodicLifeEnv.stepFn E s w a).1
            (EpisodicLifeEnv.stepFn E s w a).2.1 from rfl,
      noLifeLossB, Bool.and_eq_true] at h
    obtain ⟨h0, h1⟩ := h
    have h0l : w.lives ≤ E.lives (E.step s a).1 := of_decide_eq_true h0
    rcases List.mem_cons.mp hp with hph | hpt
    · rw [hph]
      show (EpisodicLifeEnv.stepFn E s w a).2.2.done = (E.step s a).2.done
      simp only [EpisodicLifeEnv.stepFn]
      rw [if_neg]
      intro hc
      exact absurd hc.1 (Nat.not_lt.mpr h0l)
    · exact ih (EpisodicLifeEnv.stepFn E s w a).1
        (EpisodicLifeEnv.stepFn E s w a).2.1 h1 p hpt

theorem C6_episodicLife_done_refinement_witness :
    noLifeLossB EpisodicLifeEnv.initState.lives
      (stepsEL tEnv [0, 1] 0 EpisodicLifeEnv.initState) = true ∧
    ∀ p ∈ stepsEL tEnv [0, 1] 0 EpisodicLifeEnv.initState, p.1 = p.2.1 :=
  ⟨by decide,
   C6_episodicLife_done_refinement tEnv [0, 1] 0 EpisodicLifeEnv.initState
     (by decide)⟩

/-! ## Theorems: NoopResetEnv reset (C9) -/

/-- The no-op loop over the traced environment: `n ≥ 1` no-op steps, logging
one `step 0` event each, and ending with the observation of the last one. -/
theorem noopLoop_eq {σ : Type} (E : BaseEnv σ) :
    ∀ (n : Nat) (s : σ) (log : List Event) (last : Option Obs), 1 ≤ n →
    noopLoop E.traced n (s, log) last =
      ((noopIter E n s, log ++ List.replicate n (Event.step 0)),
       some (E.step (noopIter E (n - 1) s) 0).2.obs) := by
  intro n
  induction n with
  | zero => intro s log last h; omega
  | succ n ih =>
    intro s log last _
    have hstep : E.traced.step (s, log) 0 =
        (((E.step s 0).1, log ++ [Event.step 0]), (E.step s 0).2) := rfl
    cases n with
    | zero =>
      simp [noopLoop, hstep, noopIter, List.replicate]
    | succ m =>
      rw [show noopLoop E.traced (m + 1 + 1) (s, log) last =
          noopLoop E.traced (m + 1) ((E.step s 0).1, log ++ [Event.step 0])
            (some (E.step s 0).2.obs) from rfl]
      rw [ih (E.step s 0).1 (log ++ [Event.step 0]) (some (E.step s 0).2.obs)
        (by omega)]
      simp [noopIter, List.replicate_succ, Nat.succ_sub_one, List.append_assoc]

/-- C9: a `reset` on NoOpResetWrapper whose sampled count is `noops` (the
sample `np.random.randint(1, noop_max + 1)` always lies in `[1, noop_max]`)
calls the inner `reset` once, discards its observation, then issues exactly
`noops` steps with the no-op action 0 and returns the observation of the
final such step. -/
theorem C9_noopReset_reset {σ : Type} (E : BaseEnv σ) (s : σ) (log : List Event)
    (noop_max noops : Nat) (h1 : 1 ≤ noops) (_h2 : noops ≤ noop_max) :
    NoopResetEnv.resetFn E.traced noops (s, log) =
      ((noopIter E noops (E.reset s).1,
        log ++ [Event.reset] ++ List.replicate noops (Event.step 0)),
       some (E.step (noopIter E (noops - 1) (E.reset s).1) 0).2.obs) := by
  have hreset : E.traced.reset (s, log) =
      (((E.reset s).1, log ++ [Event.reset]), (E.reset s).2) := rfl
  simp only [NoopResetEnv.resetFn, hreset]
  rw [noopLoop_eq E noops (E.reset s).1 (log ++ [Event.reset]) none h1]

theorem C9_noopReset_reset_witness :
    1 ≤ 2 ∧ 2 ≤ 30 ∧
    NoopResetEnv.resetFn tEnv.traced 2 (5, []) =
      ((noopIter tEnv 2 (tEnv.reset 5).1,
        [Event.reset] ++ List.replicate 2 (Event.step 0)),
       some (tEnv.step (noopIter tEnv 1 (tEnv.reset 5).1) 0).2.obs) :=
  ⟨by decide, by decide, C9_noopReset_reset tEnv 5 [] 30 2 (by decide) (by decide)⟩

/-! ## Theorems: the pipeline composer (C4) -/

/-- Syntax tree of a composed wrapper stack, innermost environment at the
leaf. -/
inductive WEnv where
  | base : WEnv
  | episodicLife : WEnv → WEnv
  | noopReset : WEnv → Nat → WEnv
  | maxAndSkip : WEnv → Nat → WEnv
  | fireReset : WEnv → WEnv
  | clippedRewards : WEnv → WEnv
deriving DecidableEq, Repr

/-- `wrap_deepmind_ram`: EpisodicLife, then NoopReset(noop_max=30), then
MaxAndSkip(skip=4), then FireReset exactly when "FIRE" occurs in the base
environment's action meanings, then ClippedRewards.  Constructor assertion
failures propagate as errors.  (`env.unwrapped.get_action_meanings()` always
reads the base environment's table, here `meanings`.) -/
def wrap_deepmind_ram (meanings : List String) : Except String WEnv :=
  match NoopResetEnv.construct meanings 30 with
  | Except.error e => Except.error e
  | Except.ok nm =>
    let e3 := WEnv.maxAndSkip (WEnv.noopReset (WEnv.episodicLife WEnv.base) nm) 4
    if "FIRE" ∈ meanings then
      match FireResetEnv.construct meanings with
      | Except.error e => Except.error e
      | Except.ok _ => Except.ok (WEnv.clippedRewards (WEnv.fireReset e3))
    else
      Except.ok (WEnv.clippedRewards e3)

/-- C4: on a base environment accepted by the wrappers' constructor checks,
the composer returns the stack EpisodicLife inside NoopReset(30) inside
MaxAndSkip(4), inside FireReset if and only if "FIRE" appears in the base
action-meaning table, inside ClippedRewards. -/
theorem C4_wrap_deepmind_ram (meanings : List String)
    (hN : meanings[0]? = some "NOOP")
    (hF : "FIRE" ∈ meanings → (meanings[1]? = some "FIRE" ∧ 3 ≤ meanings.length)) :
    wrap_deepmind_ram meanings =
      Except.ok (WEnv.clippedRewards
        (if "FIRE" ∈ meanings then
          WEnv.fireReset
            (WEnv.maxAndSkip (WEnv.noopReset (WEnv.episodicLife WEnv.base) 30) 4)
        else
          WEnv.maxAndSkip (WEnv.noopReset (WEnv.episodicLife WEnv.base) 30) 4)) := by
  have hNc : NoopResetEnv.construct meanings 30 = Except.ok 30 := by
    unfold NoopResetEnv.construct
    rw [hN]
    simp
  by_cases hf : "FIRE" ∈ meanings
  · obtain ⟨hF1, hF3⟩ := hF hf
    have hFc : FireResetEnv.construct meanings = Except.ok () := by
      unfold FireResetEnv.construct
      rw [hF1]
      simp [hF3]
    unfold wrap_deepmind_ram
    rw [hNc]
    simp [hf, hFc]
  · unfold wrap_deepmind_ram
    rw [hNc]
    simp [hf]

theorem C4_wrap_deepmind_ram_witness :
    wrap_deepmind_ram ["NOOP", "FIRE", "UP"] =
      Except.ok (WEnv.clippedRewards (WEnv.fireReset
        (WEnv.maxAndSkip (WEnv.noopReset (WEnv.episodicLife WEnv.base) 30) 4))) ∧
    wrap_deepmind_ram ["NOOP", "UP"] =
      Except.ok (WEnv.clippedRewards
        (WEnv.maxAndSkip (WEnv.noopReset (WEnv.episodicLife WEnv.base) 30) 4)) := by
  constructor
  · have h := C4_wrap_deepmind_ram ["NOOP", "FIRE", "UP"] (by decide) (by decide)
    rw [h, if_pos (by decide)]
  · have h := C4_wrap_deepmind_ram ["NOOP", "UP"] (by decide) (by decide)
    rw [h, if_neg (by decide)]
